import Mathlib

/-!
Shallow embedding of the obsidian-index ingestion core
(`src/obsidian_index/index/indexer.py`, `index/worker.py`, `mcp_server.py`,
`main.py`).

Paths are strings, vault names are strings; the filesystem is a snapshot
record of the operations the code performs (`is_file`, `open`+`read`,
`stat().st_mtime`, `resolve`, `rglob` for `*.md`).  Encoder, searcher and
database are external collaborators: the encoder is a function parameter,
the database is represented by the trace of `store_note` calls the
indexer makes, and `num_notes()` is an input number.
-/

namespace ObsidianIndex

/-- An ingestion item: `(vault_name, absolute path)`, as held in
`Indexer.ingest_queue : deque[tuple[str, Path]]`. -/
abbrev Item := String × String

/-- Filesystem snapshot: the operations `indexer.py` performs on disk. -/
structure FS where
  is_file : String → Bool
  read : String → Option String
  mtime : String → Nat
  resolve : String → String
  rglob_md : String → List String

/-- The record `Database.store_note` is called with (vault, vault-relative
path, modification time, embedding). -/
structure NoteRecord where
  vault : String
  rel_path : String
  modified_time : Nat
  embedding : List Int
deriving DecidableEq, Repr

/-- One observable step of `Indexer._do_ingest_paths`: a file-content read,
the single encoder invocation, a `stat`, or a `store_note` upsert. -/
inductive IngestEvent where
  | readE (p : String)
  | encodeE (texts : List String)
  | statE (p : String)
  | upsertE (r : NoteRecord)
deriving DecidableEq, Repr

def is_read_ev : IngestEvent → Bool
  | .readE _ => true
  | _ => false

def is_store_ev : IngestEvent → Bool
  | .statE _ => true
  | .upsertE _ => true
  | _ => false

def is_upsert_ev : IngestEvent → Bool
  | .upsertE _ => true
  | _ => false

/-- `Indexer._do_ingest_batch` collection loop / `Worker.default_work` drain:
`while self.ingest_queue and len(batch) < self.ingest_batch_size: popleft`.
Returns (batch, remaining queue). -/
def drain_batch (max_n : Nat) (q : List Item) : List Item × List Item :=
  match max_n, q with
  | 0, q => ([], q)
  | _, [] => ([], [])
  | n + 1, x :: q =>
    let r := drain_batch n q
    (x :: r.1, r.2)

theorem drain_batch_eq (max_n : Nat) (q : List Item) :
    drain_batch max_n q = (q.take max_n, q.drop max_n) := by
  induction max_n generalizing q with
  | zero => cases q <;> simp [drain_batch]
  | succ n ih => cases q <;> simp [drain_batch, ih]

/-- Python `Path.suffix == ".md"` on the final path component.  (For the
paths the claims quantify over — nonempty stem plus extension — this agrees
with `endsWith`.) -/
def suffix_is_md (p : String) : Bool := ".md".data.isSuffixOf p.data

/-- Python `path.relative_to(root)`: the path with the root prefix removed,
erroring (`ValueError`) when the path is not under the root.  (Written over
the underlying character lists so that it evaluates by kernel reduction.) -/
def relative_to (p root : String) : Option String :=
  if (root ++ "/").data.isPrefixOf p.data then some ⟨p.data.drop (root.length + 1)⟩
  else none

/-- `self.vaults[vault_name]` on the `dict[str, Path]` of configured vaults
(kept as an ordered association list). -/
def lookup_vault (vaults : List (String × String)) (v : String) : Option String :=
  vaults.lookup v

/-- Phase 1 of `_do_ingest_paths`: `for _, path in vault_name_paths:
open(path); texts.append(f.read())`.  A failing `open`/`read` raises,
aborting the rest of the batch. -/
def readPhase (fs : FS) : List Item → List IngestEvent × Except String (List String)
  | [] => ([], .ok [])
  | (_, p) :: rest =>
    match fs.read p with
    | none => ([], .error ("could not read " ++ p))
    | some t =>
      let r := readPhase fs rest
      (.readE p :: r.1, r.2.map (fun ts => t :: ts))

/-- Phase 3 of `_do_ingest_paths`: `for (vault_name, path), emb in
zip(vault_name_paths, embs, strict=True): rel = path.relative_to(vaults[v]);
store_note(rel, v, path.stat().st_mtime, emb)`.  `zip(strict=True)` yields
pairs up to the shorter length and then raises on a length mismatch, so the
upserts made before the mismatch stand. -/
def storePhase (fs : FS) (vaults : List (String × String)) :
    List Item → List (List Int) → List IngestEvent × Except String (List NoteRecord)
  | [], [] => ([], .ok [])
  | [], _ :: _ => ([], .error "zip strict length mismatch")
  | _ :: _, [] => ([], .error "zip strict length mismatch")
  | (v, p) :: items, e :: embs =>
    match lookup_vault vaults v with
    | none => ([], .error ("unknown vault " ++ v))
    | some root =>
      match relative_to p root with
      | none => ([], .error ("path not under vault root " ++ p))
      | some rel =>
        let r : NoteRecord := ⟨v, rel, fs.mtime p, e⟩
        let rest := storePhase fs vaults items embs
        (.statE p :: .upsertE r :: rest.1,
         match rest.2 with
         | .ok rs => .ok (r :: rs)
         | .error m => .error m)

/-- `Indexer._do_ingest_paths`: read every file's text, encode all texts in
one encoder call, then stat and upsert each (item, embedding) pair.
Returns the event trace together with the list of stored records (or the
error that aborted the batch). -/
def do_ingest_paths (fs : FS) (vaults : List (String × String))
    (encode : List String → List (List Int)) (items : List Item) :
    List IngestEvent × Except String (List NoteRecord) :=
  let rd := readPhase fs items
  match rd.2 with
  | .error m => (rd.1, .error m)
  | .ok texts =>
    let st := storePhase fs vaults items (encode texts)
    (rd.1 ++ IngestEvent.encodeE texts :: st.1, st.2)

/-- `Indexer._do_ingest_batch`: drain up to `ingest_batch_size` items from
the queue head, then `_do_ingest_paths` on the batch.  Returns the remaining
queue and the ingestion outcome; a failed batch is not re-enqueued. -/
def do_ingest_batch (fs : FS) (vaults : List (String × String))
    (encode : List String → List (List Int)) (n : Nat) (q : List Item) :
    List Item × (List IngestEvent × Except String (List NoteRecord)) :=
  let d := drain_batch n q
  (d.2, do_ingest_paths fs vaults encode d.1)

/-- `Indexer.enqueue_path_for_ingestion`: append to the queue tail when
`path.is_file()`, otherwise only log a warning. -/
def enqueue_path_for_ingestion (fs : FS) (q : List Item)
    (vault : String) (path : String) : List Item :=
  if fs.is_file path then q ++ [(vault, path)] else q

/-- `Indexer.find_all_note_paths`: for each configured vault in order,
`root.rglob("*.md")`, yielding `(vault_name, path)` pairs. -/
def find_all_note_paths (fs : FS) (vaults : List (String × String)) : List Item :=
  vaults.flatMap (fun vr => (fs.rglob_md vr.2).map (fun p => (vr.1, p)))

/-- `Indexer.enqueue_all_note_paths_for_ingestion`: enqueue every scanned
path through `enqueue_path_for_ingestion`. -/
def enqueue_all_note_paths_for_ingestion (fs : FS)
    (vaults : List (String × String)) (q : List Item) : List Item :=
  (find_all_note_paths fs vaults).foldl
    (fun acc it => enqueue_path_for_ingestion fs acc it.1 it.2) q

/-- The cold-bootstrap step of `Indexer.__init__`:
`if self.database.num_notes() == 0: self.enqueue_all_note_paths_for_ingestion()`.
`num_notes` is the external store's record count. -/
def indexer_init_enqueue (num_notes : Nat) (fs : FS)
    (vaults : List (String × String)) (q : List Item) : List Item :=
  if num_notes = 0 then enqueue_all_note_paths_for_ingestion fs vaults q else q

/-- The `while` condition of `Indexer.run_ingestor`:
`while self.ingest_queue or not stop_when_done`. -/
def loop_continue (stop_when_done : Bool) (q : List Item) : Bool :=
  !q.isEmpty || !stop_when_done

/-- `Indexer.run_ingestor` as a step-indexed loop with no concurrent
producers: each iteration whose `while` condition holds drains one batch
and hands it to `_do_ingest_paths`; the returned flag records whether the
loop exited within `k` iterations.  Result: (drained batches in order,
final queue, exited). -/
def run_ingestor_steps (stop_when_done : Bool) (n : Nat) :
    Nat → List Item → List (List Item) × List Item × Bool
  | 0, q => ([], q, false)
  | k + 1, q =>
    if loop_continue stop_when_done q then
      let d := drain_batch n q
      let r := run_ingestor_steps stop_when_done n k d.2
      (d.1 :: r.1, r.2.1, r.2.2)
    else ([], q, true)

/-- A watchdog filesystem event: whether it targets a directory, and its
source path. -/
structure FsEvent where
  is_directory : Bool
  src_path : String
deriving DecidableEq, Repr

/-- `_FSEventHandler.on_created` (indexer.py): for a non-directory event
whose path `is_file()` and has suffix `.md`, enqueue the resolved path
through `Indexer.enqueue_path_for_ingestion`; otherwise do nothing. -/
def on_created (fs : FS) (vault : String) (ev : FsEvent) (q : List Item) : List Item :=
  if ev.is_directory then q
  else if fs.is_file ev.src_path && suffix_is_md ev.src_path then
    enqueue_path_for_ingestion fs q vault (fs.resolve ev.src_path)
  else q

/-- `_FSEventHandler.on_modified` (indexer.py): identical body to
`on_created`. -/
def on_modified (fs : FS) (vault : String) (ev : FsEvent) (q : List Item) : List Item :=
  if ev.is_directory then q
  else if fs.is_file ev.src_path && suffix_is_md ev.src_path then
    enqueue_path_for_ingestion fs q vault (fs.resolve ev.src_path)
  else q

/-- `_FSEventHandler.on_deleted`: only emits a warning log line; queue and
store are untouched.  Returns (queue, store, log lines). -/
def on_deleted (fs : FS) (ev : FsEvent) (q : List Item) (store : List NoteRecord) :
    List Item × List NoteRecord × List String :=
  if !ev.is_directory && fs.is_file ev.src_path && suffix_is_md ev.src_path then
    (q, store, ["Deleted file: " ++ ev.src_path])
  else (q, store, [])

/-- `_FSEventHandler.on_moved`: only emits a warning log line; queue and
store are untouched. -/
def on_moved (fs : FS) (ev : FsEvent) (q : List Item) (store : List NoteRecord) :
    List Item × List NoteRecord × List String :=
  if !ev.is_directory && fs.is_file ev.src_path && suffix_is_md ev.src_path then
    (q, store, ["Moved file: " ++ ev.src_path])
  else (q, store, [])

/-- What one wake of the worker control loop did: serviced one search
request, or ran one ingestion batch drain. -/
structure WakeOutcome where
  response : Option (List String)
  batch : Option (List Item)
  slot_after : Option String
  queue_after : List Item
deriving DecidableEq, Repr

/-- Modelled from the spec: the `BaseWorker` control loop
(`background_worker.py`, not under src/).  Per §4.4, on each wake: if a
request is pending, service it synchronously via `process_message`
(worker.py: `searcher.search(query)`) and clear the slot; else run
`default_work` (worker.py: drain up to `ingest_batch_size` items and hand
the batch to ingestion).  One wake never does both. -/
def worker_wake (search : String → List String) (n : Nat)
    (slot : Option String) (q : List Item) : WakeOutcome :=
  match slot with
  | some req => ⟨some (search req), none, none, q⟩
  | none =>
    let d := drain_batch n q
    ⟨none, some d.1, none, d.2⟩

/-- An MCP embedded resource as built by `handle_call_tool`. -/
structure ToolResource where
  uri : String
  mimeType : String
  text : String
deriving DecidableEq, Repr

/-- `handle_call_tool` (mcp_server.py): reject unknown tool names, missing
or empty argument dicts, and missing or empty `query` values; otherwise
search and return one embedded resource (file URI, markdown mime, the
file's text) per result path, in search order.  `searcher.search` and
`Path.read_text` are external collaborators passed as functions. -/
def handle_call_tool (search : String → List String) (read_text : String → String)
    (name : String) (arguments : Option (List (String × String))) :
    Except String (List ToolResource) :=
  if name ≠ "search-notes" then .error ("Unknown tool: " ++ name)
  else
    match arguments with
    | none => .error "Missing arguments"
    | some args =>
      if args.isEmpty then .error "Missing arguments"
      else
        match args.lookup "query" with
        | none => .error "Missing query"
        | some query =>
          if query = "" then .error "Missing query"
          else
            .ok ((search query).map
              (fun p => ⟨"file://" ++ p, "text/markdown", read_text p⟩))

/-- The MCP server process holds no reference to the ingestion queue or the
indexer (the background indexer is a separate OS process), so a tool call
leaves any ingestion state unchanged. -/
def handle_call_tool_with_state (search : String → List String)
    (read_text : String → String) (name : String)
    (arguments : Option (List (String × String)))
    (ingest_state : List Item × List NoteRecord) :
    Except String (List ToolResource) × (List Item × List NoteRecord) :=
  (handle_call_tool search read_text name arguments, ingest_state)

/-- The exact failure condition of `handle_call_tool`: wrong tool name, a
missing or empty argument dict, or a missing or empty `query` value. -/
def call_tool_err_cond (name : String)
    (arguments : Option (List (String × String))) : Bool :=
  !(name == "search-notes") ||
    (match arguments with
     | none => true
     | some args =>
       args.isEmpty ||
         (match args.lookup "query" with
          | none => true
          | some query => query == ""))

/-- Number of `store_note` upsert calls in a trace. -/
def num_upserts (evs : List IngestEvent) : Nat :=
  (evs.filter is_upsert_ev).length

/-- Number of upsert calls for a given vault-relative path. -/
def upserts_for (evs : List IngestEvent) (rel : String) : Nat :=
  (evs.filter (fun e =>
    match e with
    | .upsertE r => r.rel_path == rel
    | _ => false)).length

/-! Concrete test fixtures: a single vault `V` rooted at `/v` where every
path is a readable file, and a three-vault configuration with 5, 0 and 2
matching notes, both with a constant encoder. -/

def fsV : FS where
  is_file := fun _ => true
  read := fun _ => some "text"
  mtime := fun _ => 0
  resolve := id
  rglob_md := fun _ => []

def vaultsV : List (String × String) := [("V", "/v")]

def encV : List String → List (List Int) := fun ts => ts.map (fun _ => [0])

def q3 : List Item := [("V", "/v/a.md"), ("V", "/v/b.md"), ("V", "/v/a.md")]

def fsA : FS where
  is_file := fun _ => true
  read := fun _ => some "text"
  mtime := fun _ => 0
  resolve := id
  rglob_md := fun root =>
    if root = "/a" then
      ["/a/n1.md", "/a/n2.md", "/a/n3.md", "/a/n4.md", "/a/n5.md"]
    else if root = "/c" then ["/c/m1.md", "/c/m2.md"]
    else []

def vaultsA : List (String × String) := [("A", "/a"), ("B", "/b"), ("C", "/c")]

/-- The queue produced by the cold bootstrap on the three-vault fixture. -/
def bootQ : List Item := indexer_init_enqueue 0 fsA vaultsA []

/-- A snapshot where `/v/b.md` cannot be read (vanished or permission
denied) but other paths read fine. -/
def fsBad : FS where
  is_file := fun _ => true
  read := fun p => if p = "/v/b.md" then none else some "text"
  mtime := fun _ => 0
  resolve := id
  rglob_md := fun _ => []

/-- C1: `drain_batch` removes at most `max_n` items from the queue head in
enqueue order with no deduplication, and on the scenario
`[(V,a.md),(V,b.md),(V,a.md)]` with batch size 2 the first drain returns
the first two items, the second drain returns the repeated `a.md`, and
ingesting both batches performs exactly 2 upserts whose relative path is
`a.md`. -/
theorem drain_batch_bounded_fifo_scenario :
    (∀ (q : List Item) (max_n : Nat), 1 ≤ max_n →
      (drain_batch max_n q).1.length ≤ max_n ∧
      (drain_batch max_n q).1 ++ (drain_batch max_n q).2 = q) ∧
    drain_batch 2 q3 = ([("V", "/v/a.md"), ("V", "/v/b.md")], [("V", "/v/a.md")]) ∧
    drain_batch 2 (drain_batch 2 q3).2 = ([("V", "/v/a.md")], []) ∧
    upserts_for ((do_ingest_paths fsV vaultsV encV (drain_batch 2 q3).1).1 ++
        (do_ingest_paths fsV vaultsV encV (drain_batch 2 (drain_batch 2 q3).2).1).1)
      "a.md" = 2 := by
  refine ⟨fun q n _ => ?_, by decide, by decide, by decide⟩
  rw [drain_batch_eq]
  exact ⟨by simp, List.take_append_drop n q⟩

/-- Witness for C1 at the scenario queue and batch size 2. -/
theorem drain_batch_bounded_fifo_scenario_witness :
    (drain_batch 2 q3).1.length ≤ 2 ∧
    (drain_batch 2 q3).1 ++ (drain_batch 2 q3).2 = q3 :=
  drain_batch_bounded_fifo_scenario.1 q3 2 (by decide)

/-- C2: in each wake of the worker control loop, a pending search request
is serviced before any ingestion work (queue untouched, slot cleared), and
when no request is pending exactly one ingestion batch is drained; a wake
never does both. -/
theorem worker_wake_request_first :
    ∀ (search : String → List String) (n : Nat) (slot : Option String) (q : List Item),
      (∀ req, slot = some req →
        (worker_wake search n slot q).response = some (search req) ∧
        (worker_wake search n slot q).batch = none ∧
        (worker_wake search n slot q).slot_after = none ∧
        (worker_wake search n slot q).queue_after = q) ∧
      (slot = none →
        (worker_wake search n slot q).response = none ∧
        (worker_wake search n slot q).batch = some (drain_batch n q).1 ∧
        (worker_wake search n slot q).queue_after = (drain_batch n q).2) ∧
      ¬((worker_wake search n slot q).response.isSome = true ∧
        (worker_wake search n slot q).batch.isSome = true) ∧
      ((worker_wake search n slot q).response.isSome = true ∨
        (worker_wake search n slot q).batch.isSome = true) := by
  intro search n slot q
  cases slot <;> simp [worker_wake]

/-- Witness for C2: with a pending request the wake services it and drains
nothing. -/
theorem worker_wake_request_first_witness :
    (worker_wake (fun _ => ["/v/a.md"]) 2 (some "query") q3).response =
      some ["/v/a.md"] ∧
    (worker_wake (fun _ => ["/v/a.md"]) 2 (some "query") q3).batch = none ∧
    (worker_wake (fun _ => ["/v/a.md"]) 2 (some "query") q3).slot_after = none ∧
    (worker_wake (fun _ => ["/v/a.md"]) 2 (some "query") q3).queue_after = q3 :=
  (worker_wake_request_first (fun _ => ["/v/a.md"]) 2 (some "query") q3).1 "query" rfl

/-- C5: delete and move filesystem events mutate neither the ingestion
queue nor the store; they are log-only. -/
theorem delete_move_events_log_only :
    ∀ (fs : FS) (ev : FsEvent) (q : List Item) (store : List NoteRecord),
      (on_deleted fs ev q store).1 = q ∧
      (on_deleted fs ev q store).2.1 = store ∧
      (on_moved fs ev q store).1 = q ∧
      (on_moved fs ev q store).2.1 = store := by
  intro fs ev q store
  unfold on_deleted on_moved
  constructor
  · split <;> rfl
  constructor
  · split <;> rfl
  constructor
  · split <;> rfl
  · split <;> rfl

/-- C6: the create/modify watcher handlers enqueue only non-directory
events whose path is an existing regular file with suffix `.md`; the
enqueued item is the resolved path (which must itself be a regular file,
per `enqueue_path_for_ingestion`), appended at the tail; directory events
and non-matching extensions cause no enqueue, and `on_modified` behaves
exactly as `on_created`. -/
theorem watcher_enqueue_only_md_files :
    ∀ (fs : FS) (vault : String) (ev : FsEvent) (q : List Item),
      on_modified fs vault ev q = on_created fs vault ev q ∧
      (ev.is_directory = true → on_created fs vault ev q = q) ∧
      (suffix_is_md ev.src_path = false → on_created fs vault ev q = q) ∧
      (fs.is_file ev.src_path = false → on_created fs vault ev q = q) ∧
      (fs.is_file (fs.resolve ev.src_path) = false → on_created fs vault ev q = q) ∧
      (on_created fs vault ev q = q ∨
        (ev.is_directory = false ∧ fs.is_file ev.src_path = true ∧
         suffix_is_md ev.src_path = true ∧
         fs.is_file (fs.resolve ev.src_path) = true ∧
         on_created fs vault ev q = q ++ [(vault, fs.resolve ev.src_path)])) := by
  intro fs vault ev q
  unfold on_created on_modified enqueue_path_for_ingestion
  by_cases hd : ev.is_directory = true
  · simp [hd]
  · rw [Bool.not_eq_true] at hd
    by_cases hf : fs.is_file ev.src_path = true
    · by_cases hm : suffix_is_md ev.src_path = true
      · by_cases hr : fs.is_file (fs.resolve ev.src_path) = true
        · simp [hd, hf, hm, hr]
        · rw [Bool.not_eq_true] at hr
          simp [hd, hf, hm, hr]
      · rw [Bool.not_eq_true] at hm
        simp [hd, hf, hm]
    · rw [Bool.not_eq_true] at hf
      simp [hd, hf]

/-- Witness for C6: a modify event for `/v/a.md` (a regular file) is
enqueued at the tail as its resolved path. -/
theorem watcher_enqueue_only_md_files_witness :
    on_created fsV "V" ⟨false, "/v/a.md"⟩ [] = [] ∨
    (false = false ∧ fsV.is_file "/v/a.md" = true ∧
     suffix_is_md "/v/a.md" = true ∧
     fsV.is_file (fsV.resolve "/v/a.md") = true ∧
     on_created fsV "V" ⟨false, "/v/a.md"⟩ [] = [] ++ [("V", fsV.resolve "/v/a.md")]) :=
  (watcher_enqueue_only_md_files fsV "V" ⟨false, "/v/a.md"⟩ []).2.2.2.2.2

/-- When every scanned path is a regular file, enqueuing a list of scanned
items appends the whole list to the queue. -/
theorem foldl_enqueue_all_files (fs : FS) :
    ∀ (l : List Item) (q : List Item), (∀ it ∈ l, fs.is_file it.2 = true) →
      l.foldl (fun acc it => enqueue_path_for_ingestion fs acc it.1 it.2) q = q ++ l := by
  intro l
  induction l with
  | nil => intro q _; simp
  | cons x l ih =>
    intro q h
    have hx : fs.is_file x.2 = true := h x (List.mem_cons_self x l)
    have hl : ∀ it ∈ l, fs.is_file it.2 = true := fun it hit => h it (List.mem_cons_of_mem x hit)
    rw [List.foldl_cons]
    have hstep : enqueue_path_for_ingestion fs q x.1 x.2 = q ++ [x] := by
      simp [enqueue_path_for_ingestion, hx]
    rw [hstep, ih (q ++ [x]) hl, List.append_assoc]
    rfl

/-- C3: the bootstrap enqueue of `Indexer.__init__` runs exactly when the
store reports zero records; it then enqueues every scanned `(vault, path)`
match once, in scan order (given the scan yields regular files); a
non-empty store causes no enqueue.  On the 5/0/2 three-vault fixture it
enqueues exactly 7 items and any single drain with batch size ≥ 7 followed
by ingestion performs exactly 7 store upserts. -/
theorem cold_bootstrap :
    (∀ (num : Nat) (fs : FS) (vaults : List (String × String)) (q : List Item),
      num ≠ 0 → indexer_init_enqueue num fs vaults q = q) ∧
    (∀ (fs : FS) (vaults : List (String × String)),
      (∀ vr ∈ vaults, ∀ p ∈ fs.rglob_md vr.2, fs.is_file p = true) →
      indexer_init_enqueue 0 fs vaults [] = find_all_note_paths fs vaults) ∧
    bootQ.length = 7 ∧
    (∀ n : Nat, 7 ≤ n →
      drain_batch n bootQ = (bootQ, []) ∧
      num_upserts (do_ingest_paths fsA vaultsA encV (drain_batch n bootQ).1).1 = 7) := by
  refine ⟨fun num fs vaults q hnum => ?_, fun fs vaults h => ?_, by decide, fun n hn => ?_⟩
  · simp [indexer_init_enqueue, hnum]
  · have hall : ∀ it ∈ find_all_note_paths fs vaults, fs.is_file it.2 = true := by
      intro it hit
      simp only [find_all_note_paths, List.mem_flatMap, List.mem_map] at hit
      obtain ⟨vr, hvr, p, hp, rfl⟩ := hit
      exact h vr hvr p hp
    simp only [indexer_init_enqueue, if_pos rfl, enqueue_all_note_paths_for_ingestion]
    rw [foldl_enqueue_all_files fs _ [] hall]
    rfl
  · have hb : drain_batch n bootQ = (bootQ, []) := by
      rw [drain_batch_eq]
      have h7 : bootQ.length = 7 := by decide
      have ht : List.take n bootQ = bootQ :=
        List.take_of_length_le (by rw [h7]; exact hn)
      have hd : List.drop n bootQ = [] :=
        List.drop_eq_nil_of_le (by rw [h7]; exact hn)
      rw [ht, hd]
    refine ⟨hb, ?_⟩
    rw [hb]
    decide

/-- Witness for C3: a store with one record bootstraps nothing, and on the
fixture a drain with batch size 7 yields exactly 7 upserts. -/
theorem cold_bootstrap_witness :
    indexer_init_enqueue 1 fsA vaultsA q3 = q3 ∧
    num_upserts (do_ingest_paths fsA vaultsA encV (drain_batch 7 bootQ).1).1 = 7 :=
  ⟨cold_bootstrap.1 1 fsA vaultsA q3 (by decide),
   (cold_bootstrap.2.2.2 7 (by decide)).2⟩

/-- Every event the read phase emits is a file read. -/
theorem readPhase_events (fs : FS) :
    ∀ items : List Item, ∀ e ∈ (readPhase fs items).1, is_read_ev e = true := by
  intro items
  induction items with
  | nil => intro e he; simp [readPhase] at he
  | cons x rest ih =>
    intro e he
    obtain ⟨v, p⟩ := x
    simp only [readPhase] at he
    cases hr : fs.read p with
    | none => rw [hr] at he; simp at he
    | some t =>
      rw [hr] at he
      simp only [List.mem_cons] at he
      rcases he with he | he
      · rw [he]; rfl
      · exact ih e he

/-- If some item of the batch cannot be read, the read phase raises. -/
theorem readPhase_error_of_mem (fs : FS) :
    ∀ items : List Item, (∃ it ∈ items, fs.read it.2 = none) →
      ∃ m, (readPhase fs items).2 = .error m := by
  intro items
  induction items with
  | nil => intro h; obtain ⟨it, hmem, _⟩ := h; simp at hmem
  | cons x rest ih =>
    intro h
    obtain ⟨v, p⟩ := x
    simp only [readPhase]
    cases hr : fs.read p with
    | none => exact ⟨"could not read " ++ p, rfl⟩
    | some t =>
      obtain ⟨it, hmem, hnone⟩ := h
      rcases List.mem_cons.1 hmem with rfl | hmem
      · rw [hr] at hnone; exact absurd hnone (by simp)
      · obtain ⟨m, hm⟩ := ih ⟨it, hmem, hnone⟩
        refine ⟨m, ?_⟩
        simp [hm, Except.map]

/-- A trace of pure reads contains no upsert. -/
theorem num_upserts_of_reads (evs : List IngestEvent)
    (h : ∀ e ∈ evs, is_read_ev e = true) : num_upserts evs = 0 := by
  unfold num_upserts
  rw [List.filter_eq_nil_iff.2]
  · rfl
  · intro e he
    have := h e he
    cases e <;> simp_all [is_read_ev, is_upsert_ev]

/-- C4: if any file of a drained batch fails to read, the batch's ingestion
raises; every emitted event is a read (so the encoder was never invoked and
no upsert was performed), and the failed batch's items are not re-enqueued:
the remaining queue is exactly the undrained part. -/
theorem read_error_aborts_batch :
    ∀ (fs : FS) (vaults : List (String × String))
      (encode : List String → List (List Int)) (n : Nat) (q : List Item),
      (∃ it ∈ (drain_batch n q).1, fs.read it.2 = none) →
      (∃ m, (do_ingest_batch fs vaults encode n q).2.2 = .error m) ∧
      (∀ e ∈ (do_ingest_batch fs vaults encode n q).2.1, is_read_ev e = true) ∧
      num_upserts (do_ingest_batch fs vaults encode n q).2.1 = 0 ∧
      (do_ingest_batch fs vaults encode n q).1 = q.drop n := by
  intro fs vaults encode n q h
  obtain ⟨m, hm⟩ := readPhase_error_of_mem fs (drain_batch n q).1 h
  have hpaths : do_ingest_paths fs vaults encode (drain_batch n q).1 =
      ((readPhase fs (drain_batch n q).1).1, .error m) := by
    simp only [do_ingest_paths, hm]
  have hbatch : do_ingest_batch fs vaults encode n q =
      ((drain_batch n q).2, ((readPhase fs (drain_batch n q).1).1, .error m)) := by
    simp only [do_ingest_batch, hpaths]
  rw [hbatch]
  refine ⟨⟨m, rfl⟩, readPhase_events fs (drain_batch n q).1,
    num_upserts_of_reads _ (readPhase_events fs (drain_batch n q).1), ?_⟩
  rw [drain_batch_eq]

/-- Witness for C4 on the batch `[a.md, b.md]` where `b.md` is unreadable. -/
theorem read_error_aborts_batch_witness :
    (∃ m, (do_ingest_batch fsBad vaultsV encV 2
      [("V", "/v/a.md"), ("V", "/v/b.md")]).2.2 = .error m) ∧
    (∀ e ∈ (do_ingest_batch fsBad vaultsV encV 2
      [("V", "/v/a.md"), ("V", "/v/b.md")]).2.1, is_read_ev e = true) ∧
    num_upserts (do_ingest_batch fsBad vaultsV encV 2
      [("V", "/v/a.md"), ("V", "/v/b.md")]).2.1 = 0 ∧
    (do_ingest_batch fsBad vaultsV encV 2
      [("V", "/v/a.md"), ("V", "/v/b.md")]).1 =
      List.drop 2 [("V", "/v/a.md"), ("V", "/v/b.md")] :=
  read_error_aborts_batch fsBad vaultsV encV 2
    [("V", "/v/a.md"), ("V", "/v/b.md")] (by decide)

/-- Every event the store phase emits is a stat or an upsert. -/
theorem storePhase_events (fs : FS) (vaults : List (String × String)) :
    ∀ (items : List Item) (embs : List (List Int)),
      ∀ e ∈ (storePhase fs vaults items embs).1, is_store_ev e = true := by
  intro items
  induction items with
  | nil => intro embs e he; cases embs <;> simp [storePhase] at he
  | cons x rest ih =>
    intro embs e he
    obtain ⟨v, p⟩ := x
    cases embs with
    | nil => simp [storePhase] at he
    | cons emb embs =>
      cases h1 : lookup_vault vaults v with
      | none => simp [storePhase, h1] at he
      | some root =>
        cases h2 : relative_to p root with
        | none => simp [storePhase, h1, h2] at he
        | some rel =>
          simp only [storePhase, h1, h2, List.mem_cons] at he
          rcases he with rfl | rfl | he
          · rfl
          · rfl
          · exact ih embs e he

/-- The per-item shape of the records a successful store phase upserts:
vault name, vault-relative path, and the file's stat time. -/
theorem storePhase_ok (fs : FS) (vaults : List (String × String)) :
    ∀ (items : List Item) (embs : List (List Int)) (evs : List IngestEvent)
      (recs : List NoteRecord),
      storePhase fs vaults items embs = (evs, .ok recs) →
      List.Forall₂ (fun (it : Item) (r : NoteRecord) =>
        r.vault = it.1 ∧ r.modified_time = fs.mtime it.2 ∧
        ∃ root, lookup_vault vaults it.1 = some root ∧
          relative_to it.2 root = some r.rel_path) items recs := by
  intro items
  induction items with
  | nil =>
    intro embs evs recs h
    cases embs with
    | nil =>
      simp only [storePhase, Prod.mk.injEq] at h
      obtain ⟨-, h2⟩ := h
      cases h2
      exact List.Forall₂.nil
    | cons e es => simp [storePhase] at h
  | cons x rest ih =>
    intro embs evs recs h
    obtain ⟨v, p⟩ := x
    cases embs with
    | nil => simp [storePhase] at h
    | cons emb embs =>
      cases h1 : lookup_vault vaults v with
      | none => simp [storePhase, h1] at h
      | some root =>
        cases h2 : relative_to p root with
        | none => simp [storePhase, h1, h2] at h
        | some rel =>
          cases hrest : (storePhase fs vaults rest embs).2 with
          | error m => simp [storePhase, h1, h2, hrest] at h
          | ok rs =>
            simp only [storePhase, h1, h2, hrest, Prod.mk.injEq] at h
            obtain ⟨-, h3⟩ := h
            cases h3
            refine List.Forall₂.cons ⟨rfl, rfl, root, h1, h2⟩ ?_
            exact ih embs (storePhase fs vaults rest embs).1 rs
              (by rw [← hrest])

/-- A successful read phase yields one text per item. -/
theorem readPhase_ok_length (fs : FS) :
    ∀ (items : List Item) (texts : List String),
      (readPhase fs items).2 = .ok texts → texts.length = items.length := by
  intro items
  induction items with
  | nil =>
    intro texts h
    simp only [readPhase] at h
    cases h
    rfl
  | cons x rest ih =>
    intro texts h
    obtain ⟨v, p⟩ := x
    simp only [readPhase] at h
    cases hr : fs.read p with
    | none => rw [hr] at h; simp at h
    | some t =>
      rw [hr] at h
      cases hrest : (readPhase fs rest).2 with
      | error m => rw [hrest] at h; simp [Except.map] at h
      | ok ts =>
        rw [hrest] at h
        simp only [Except.map, Except.ok.injEq] at h
        cases h
        simp [ih ts hrest]

/-- C7: a successful ingest upserts, for each item in order, a record keyed
by the vault name and the vault-relative path whose `modified_time` is the
file's stat time; the event trace is all content reads, then the single
encoder call, then only stats and upserts. -/
theorem ingest_keys_and_phase_order :
    ∀ (fs : FS) (vaults : List (String × String))
      (encode : List String → List (List Int)) (items : List Item)
      (evs : List IngestEvent) (recs : List NoteRecord),
      do_ingest_paths fs vaults encode items = (evs, .ok recs) →
      (∃ revs texts sevs,
        evs = revs ++ IngestEvent.encodeE texts :: sevs ∧
        (∀ e ∈ revs, is_read_ev e = true) ∧
        (∀ e ∈ sevs, is_store_ev e = true)) ∧
      List.Forall₂ (fun (it : Item) (r : NoteRecord) =>
        r.vault = it.1 ∧ r.modified_time = fs.mtime it.2 ∧
        ∃ root, lookup_vault vaults it.1 = some root ∧
          relative_to it.2 root = some r.rel_path) items recs := by
  intro fs vaults encode items evs recs h
  cases hrd : (readPhase fs items).2 with
  | error m => simp [do_ingest_paths, hrd] at h
  | ok texts =>
    simp only [do_ingest_paths, hrd] at h
    cases hst : (storePhase fs vaults items (encode texts)).2 with
    | error m => rw [hst] at h; simp at h
    | ok rs =>
      rw [hst] at h
      simp only [Prod.mk.injEq, Except.ok.injEq] at h
      obtain ⟨hevs, hrecs⟩ := h
      subst hevs hrecs
      refine ⟨⟨(readPhase fs items).1, texts,
        (storePhase fs vaults items (encode texts)).1, rfl,
        readPhase_events fs items,
        storePhase_events fs vaults items (encode texts)⟩, ?_⟩
      exact storePhase_ok fs vaults items (encode texts)
        (storePhase fs vaults items (encode texts)).1 rs (by rw [← hst])

/-- Witness for C7: ingesting `[("V", "/v/a.md")]` on the fixture. -/
theorem ingest_keys_and_phase_order_witness :
    (∃ revs texts sevs,
      [IngestEvent.readE "/v/a.md", IngestEvent.encodeE ["text"],
       IngestEvent.statE "/v/a.md",
       IngestEvent.upsertE ⟨"V", "a.md", 0, [0]⟩] =
        revs ++ IngestEvent.encodeE texts :: sevs ∧
      (∀ e ∈ revs, is_read_ev e = true) ∧
      (∀ e ∈ sevs, is_store_ev e = true)) ∧
    List.Forall₂ (fun (it : Item) (r : NoteRecord) =>
      r.vault = it.1 ∧ r.modified_time = fsV.mtime it.2 ∧
      ∃ root, lookup_vault vaultsV it.1 = some root ∧
        relative_to it.2 root = some r.rel_path)
      [("V", "/v/a.md")] [⟨"V", "a.md", 0, [0]⟩] :=
  ingest_keys_and_phase_order fsV vaultsV encV [("V", "/v/a.md")]
    [IngestEvent.readE "/v/a.md", IngestEvent.encodeE ["text"],
     IngestEvent.statE "/v/a.md",
     IngestEvent.upsertE ⟨"V", "a.md", 0, [0]⟩]
    [⟨"V", "a.md", 0, [0]⟩] (by rfl)

/-- C8: in one-shot mode (`stop_when_done = True`, the non-watching
invocation) the ingest loop exits within `length + 1` iterations with an
empty queue, having handed every enqueued item (in order) to ingestion;
in continuous-watch mode (`stop_when_done = False`) the loop condition
always holds, so the loop never exits on its own. -/
theorem run_ingestor_modes :
    (∀ (n k : Nat) (q : List Item), 1 ≤ n → q.length < k →
      (run_ingestor_steps true n k q).2.1 = [] ∧
      (run_ingestor_steps true n k q).2.2 = true ∧
      (run_ingestor_steps true n k q).1.flatten = q) ∧
    (∀ (n k : Nat) (q : List Item),
      (run_ingestor_steps false n k q).2.2 = false) := by
  constructor
  · intro n k
    induction k with
    | zero => intro q _ hk; exact absurd hk (by omega)
    | succ k ih =>
      intro q hn hk
      cases q with
      | nil => simp [run_ingestor_steps, loop_continue]
      | cons x xs =>
        have hcond : loop_continue true (x :: xs) = true := by
          simp [loop_continue]
        have hlen : (List.drop n (x :: xs)).length < k := by
          rw [List.length_drop]
          simp only [List.length_cons] at hk ⊢
          omega
        obtain ⟨h1, h2, h3⟩ := ih (List.drop n (x :: xs)) hn hlen
        simp only [run_ingestor_steps, hcond, if_true]
        rw [drain_batch_eq]
        refine ⟨h1, h2, ?_⟩
        simp only [List.flatten_cons, h3]
        exact List.take_append_drop n (x :: xs)
  · intro n k
    induction k with
    | zero => intro q; rfl
    | succ k ih =>
      intro q
      have hcond : loop_continue false q = true := by simp [loop_continue]
      simp only [run_ingestor_steps, hcond, if_true]
      exact ih (drain_batch n q).2

/-- Witness for C8: one-shot mode on the three-item scenario queue with
batch size 2 drains everything and exits within 4 iterations. -/
theorem run_ingestor_modes_witness :
    (run_ingestor_steps true 2 4 q3).2.1 = [] ∧
    (run_ingestor_steps true 2 4 q3).2.2 = true ∧
    (run_ingestor_steps true 2 4 q3).1.flatten = q3 :=
  run_ingestor_modes.1 2 4 q3 (by decide) (by decide)

/-- C9: a tool invocation leaves ingestion state untouched, fails exactly
when the tool name is not `search-notes` or the arguments are
missing/empty or the `query` argument is missing/empty, and on a valid
request returns one embedded resource per search-result path in search
order, each carrying the file's text. -/
theorem call_tool_validation :
    ∀ (search : String → List String) (read_text : String → String)
      (name : String) (args : Option (List (String × String)))
      (st : List Item × List NoteRecord),
      (handle_call_tool_with_state search read_text name args st).2 = st ∧
      ((∃ m, handle_call_tool search read_text name args = .error m) ↔
        call_tool_err_cond name args = true) ∧
      (∀ (argsl : List (String × String)) (query : String),
        args = some argsl → argsl.lookup "query" = some query → query ≠ "" →
        name = "search-notes" →
        handle_call_tool search read_text name args =
          .ok ((search query).map
            (fun p => ⟨"file://" ++ p, "text/markdown", read_text p⟩))) := by
  intro search read_text name args st
  refine ⟨rfl, ?_, ?_⟩
  · by_cases hn : name = "search-notes"
    · subst hn
      cases args with
      | none => simp [handle_call_tool, call_tool_err_cond]
      | some argsl =>
        by_cases he : argsl.isEmpty
        · simp [handle_call_tool, call_tool_err_cond, he]
        · cases hl : argsl.lookup "query" with
          | none => simp [handle_call_tool, call_tool_err_cond, he, hl]
          | some query =>
            by_cases hq : query = ""
            · simp [handle_call_tool, call_tool_err_cond, he, hl, hq]
            · simp [handle_call_tool, call_tool_err_cond, he, hl, hq]
    · simp [handle_call_tool, call_tool_err_cond, hn]
  · intro argsl query harg hl hq hn
    subst harg
    subst hn
    have he : argsl.isEmpty = false := by
      cases argsl
      · simp at hl
      · rfl
    simp [handle_call_tool, he, hl, hq]

/-- Witness for C9: a valid query returns the matched file's text as an
embedded resource. -/
theorem call_tool_validation_witness :
    handle_call_tool (fun _ => ["/v/a.md"]) (fun _ => "text") "search-notes"
      (some [("query", "haskell")]) =
      .ok [⟨"file:///v/a.md", "text/markdown", "text"⟩] := by
  have h := (call_tool_validation (fun _ => ["/v/a.md"]) (fun _ => "text")
    "search-notes" (some [("query", "haskell")]) ([], [])).2.2
    [("query", "haskell")] "haskell" rfl (by decide) (by decide) rfl
  exact h.trans (by rfl)

/-- When the embedding list is shorter or longer than the item list,
`zip(strict=True)` upserts exactly the pairs before the mismatch and then
raises. -/
theorem storePhase_mismatch (fs : FS) (vaults : List (String × String)) :
    ∀ (items : List Item) (embs : List (List Int)),
      (∀ it ∈ items, ∃ root, lookup_vault vaults it.1 = some root ∧
        (relative_to it.2 root).isSome = true) →
      items.length ≠ embs.length →
      (∃ m, (storePhase fs vaults items embs).2 = .error m) ∧
      num_upserts (storePhase fs vaults items embs).1 =
        min items.length embs.length := by
  intro items
  induction items with
  | nil =>
    intro embs _ hne
    cases embs with
    | nil => exact absurd rfl hne
    | cons e es => exact ⟨⟨"zip strict length mismatch", rfl⟩, by simp [storePhase, num_upserts]⟩
  | cons x rest ih =>
    intro embs h hne
    obtain ⟨v, p⟩ := x
    cases embs with
    | nil => exact ⟨⟨"zip strict length mismatch", rfl⟩, by simp [storePhase, num_upserts]⟩
    | cons emb embs =>
      obtain ⟨root, h1, h2⟩ := h (v, p) (List.mem_cons_self _ _)
      obtain ⟨rel, h2⟩ := Option.isSome_iff_exists.1 h2
      have hrest : ∀ it ∈ rest, ∃ root, lookup_vault vaults it.1 = some root ∧
          (relative_to it.2 root).isSome = true :=
        fun it hit => h it (List.mem_cons_of_mem _ hit)
      have hne2 : rest.length ≠ embs.length := by
        simp only [List.length_cons] at hne
        omega
      obtain ⟨⟨m, hm⟩, hcount⟩ := ih embs hrest hne2
      constructor
      · exact ⟨m, by simp [storePhase, h1, h2, hm]⟩
      · simp only [storePhase, h1, h2, num_upserts, List.filter_cons,
          List.length_cons]
        simp only [num_upserts] at hcount
        simp [is_upsert_ev, hcount, Nat.succ_min_succ]

/-- Upsert counts add over concatenated traces. -/
theorem num_upserts_append (a b : List IngestEvent) :
    num_upserts (a ++ b) = num_upserts a + num_upserts b := by
  simp [num_upserts, List.filter_append]

/-- C10: if the encoder returns a number of embeddings different from the
number of texts read, ingest raises instead of pairing items with wrong
embeddings, and exactly the pairs up to the shorter length have been
upserted when the error is raised. -/
theorem encoder_length_mismatch_aborts :
    ∀ (fs : FS) (vaults : List (String × String))
      (encode : List String → List (List Int)) (items : List Item)
      (texts : List String),
      (readPhase fs items).2 = .ok texts →
      (∀ it ∈ items, ∃ root, lookup_vault vaults it.1 = some root ∧
        (relative_to it.2 root).isSome = true) →
      (encode texts).length ≠ texts.length →
      (∃ m, (do_ingest_paths fs vaults encode items).2 = .error m) ∧
      num_upserts (do_ingest_paths fs vaults encode items).1 =
        min items.length (encode texts).length := by
  intro fs vaults encode items texts hrd hroots hne
  have hlen : texts.length = items.length := readPhase_ok_length fs items texts hrd
  have hne2 : items.length ≠ (encode texts).length := by
    rw [← hlen]
    exact fun hcontra => hne hcontra.symm
  obtain ⟨⟨m, hm⟩, hcount⟩ := storePhase_mismatch fs vaults items (encode texts) hroots hne2
  have hpaths : do_ingest_paths fs vaults encode items =
      ((readPhase fs items).1 ++ IngestEvent.encodeE texts ::
        (storePhase fs vaults items (encode texts)).1,
       (storePhase fs vaults items (encode texts)).2) := by
    simp only [do_ingest_paths, hrd]
  rw [hpaths]
  refine ⟨⟨m, hm⟩, ?_⟩
  have hreads : num_upserts (readPhase fs items).1 = 0 :=
    num_upserts_of_reads _ (readPhase_events fs items)
  calc num_upserts ((readPhase fs items).1 ++ IngestEvent.encodeE texts ::
        (storePhase fs vaults items (encode texts)).1)
      = num_upserts (readPhase fs items).1 +
        num_upserts (IngestEvent.encodeE texts ::
          (storePhase fs vaults items (encode texts)).1) := num_upserts_append _ _
    _ = num_upserts (storePhase fs vaults items (encode texts)).1 := by
        rw [hreads, Nat.zero_add]
        simp [num_upserts, List.filter_cons, is_upsert_ev]
    _ = min items.length (encode texts).length := hcount

/-- Witness for C10: an encoder returning no embeddings for one text makes
ingest raise with zero upserts. -/
theorem encoder_length_mismatch_aborts_witness :
    (∃ m, (do_ingest_paths fsV vaultsV (fun _ => []) [("V", "/v/a.md")]).2 =
      .error m) ∧
    num_upserts (do_ingest_paths fsV vaultsV (fun _ => [])
      [("V", "/v/a.md")]).1 = min 1 0 := by
  have h := encoder_length_mismatch_aborts fsV vaultsV (fun _ => [])
    [("V", "/v/a.md")] ["text"] rfl
    (by
      intro it hit
      rw [List.mem_singleton] at hit
      subst hit
      exact ⟨"/v", rfl, rfl⟩)
    (by decide)
  exact h

end ObsidianIndex
